import Mathlib

/-!
Verification of the Roo-Code-MCP process bridge.

This file gives a shallow embedding of the bridge's message protocol and of
the host/child command-execution logic, translated from the repository's
TypeScript sources:

* `server/src/communication.ts` (reproduced in `MCP-README.md`):
  `MessageType`, the `CommunicationMessage` union, `parseMessage`,
  `stringifyMessage`.
* `src/services/mcp/McpNodeServer.ts`: `handleServerMessage`,
  `executeCommand` (with its inner `executeWithArgs`), `sendCommandResult`,
  `sendCommandError`, `sendCommandOutput`, `restartServer`.
* `server/src/vscode-bridge.ts`: `executeCommandViaProcess` (the child-side
  command client).
* `server/src/index.ts` / `server/src/utils/port-utils.ts`: `startServer`,
  `killProcessOnPort`.

JavaScript's `JSON.parse` / `JSON.stringify` are modelled by an executable
JSON codec over the value type `JVal`.  Model restrictions (documented where
they matter): JSON numbers are modelled as integers (IEEE-754 float payloads
are outside the shallow embedding), insignificant whitespace is not modelled
(the serializer never emits any), and `\uXXXX` escapes are modelled for the
control-character range the serializer emits.
-/

/-- A JSON value as handled by `JSON.parse` / `JSON.stringify`.  Objects keep
their fields as an ordered association list, matching JavaScript property
insertion order.  Numbers are modelled as integers. -/
inductive JVal where
  | null
  | bool (b : Bool)
  | num (n : Int)
  | str (s : String)
  | arr (elems : List JVal)
  | obj (fields : List (String × JVal))

/-! ## Decimal numerals -/

/-- The character for a single decimal digit (`d < 10`). -/
def digitChar : Nat → Char
  | 0 => '0' | 1 => '1' | 2 => '2' | 3 => '3' | 4 => '4'
  | 5 => '5' | 6 => '6' | 7 => '7' | 8 => '8' | _ => '9'

/-- Decimal digits of a natural number, most significant first. -/
def natDigits (n : Nat) : List Char :=
  if _h : n < 10 then [digitChar n]
  else natDigits (n / 10) ++ [digitChar (n % 10)]
decreasing_by exact Nat.div_lt_self (by omega) (by omega)

/-- Decimal rendering of an integer, as `JSON.stringify` prints it. -/
def renderInt (n : Int) : List Char :=
  if n < 0 then '-' :: natDigits n.natAbs else natDigits n.toNat

/-! ## String escaping (per `JSON.stringify`) -/

/-- Lower-case hexadecimal digit character (`d < 16`). -/
def hexDigitChar : Nat → Char
  | 0 => '0' | 1 => '1' | 2 => '2' | 3 => '3' | 4 => '4' | 5 => '5'
  | 6 => '6' | 7 => '7' | 8 => '8' | 9 => '9' | 10 => 'a' | 11 => 'b'
  | 12 => 'c' | 13 => 'd' | 14 => 'e' | _ => 'f'

/-- How `JSON.stringify` escapes one character inside a string literal. -/
def escChar (c : Char) : List Char :=
  if c = '"' then ['\\', '"']
  else if c = '\\' then ['\\', '\\']
  else if c = '\x08' then ['\\', 'b']
  else if c = '\x09' then ['\\', 't']
  else if c = '\x0a' then ['\\', 'n']
  else if c = '\x0c' then ['\\', 'f']
  else if c = '\x0d' then ['\\', 'r']
  else if c.toNat < 32 then
    '\\' :: 'u' :: '0' :: '0' :: hexDigitChar (c.toNat / 16) :: [hexDigitChar (c.toNat % 16)]
  else [c]

/-- Escape a whole string body. -/
def escBody : List Char → List Char
  | [] => []
  | c :: cs => escChar c ++ escBody cs

/-! ## Rendering (the model of `JSON.stringify`) -/

mutual
/-- Render a JSON value exactly as `JSON.stringify` does (no whitespace). -/
def jsonRender : JVal → List Char
  | .null => 'n' :: ['u', 'l', 'l']
  | .bool true => 't' :: ['r', 'u', 'e']
  | .bool false => 'f' :: ['a', 'l', 's', 'e']
  | .num n => renderInt n
  | .str s => '"' :: (escBody s.data ++ ['"'])
  | .arr [] => ['[', ']']
  | .arr (v :: vs) => '[' :: (jsonRender v ++ (jsonRenderTail vs ++ [']']))
  | .obj [] => ['\x7b', '\x7d']
  | .obj (f :: fs) => '\x7b' :: (jsonRenderField f ++ (jsonRenderFieldTail fs ++ ['\x7d']))

/-- Render the remaining elements of a non-empty array, each preceded by a comma. -/
def jsonRenderTail : List JVal → List Char
  | [] => []
  | v :: vs => ',' :: (jsonRender v ++ jsonRenderTail vs)

/-- Render one object field: quoted escaped key, colon, value. -/
def jsonRenderField : String × JVal → List Char
  | (k, v) => '"' :: (escBody k.data ++ ('"' :: ':' :: jsonRender v))

/-- Render the remaining fields of a non-empty object, each preceded by a comma. -/
def jsonRenderFieldTail : List (String × JVal) → List Char
  | [] => []
  | f :: fs => ',' :: (jsonRenderField f ++ jsonRenderFieldTail fs)
end

/-! ## Parsing (the model of `JSON.parse`) -/

/-- Whether a character is a decimal digit. -/
def isDigitChar (c : Char) : Bool := 48 ≤ c.toNat && c.toNat ≤ 57

/-- Numeric value of a decimal digit character. -/
def digitVal (c : Char) : Nat := c.toNat - 48

/-- Consume a run of decimal digits, accumulating their value. -/
def parseDigitsRun : Nat → List Char → Nat × List Char
  | acc, [] => (acc, [])
  | acc, c :: cs =>
    if isDigitChar c then parseDigitsRun (acc * 10 + digitVal c) cs else (acc, c :: cs)

/-- Parse a non-empty digit run into a natural number. -/
def parseNatNum : List Char → Option (Nat × List Char)
  | [] => none
  | c :: cs => if isDigitChar c then some (parseDigitsRun 0 (c :: cs)) else none

/-- Numeric value of a hexadecimal digit character, if it is one. -/
def hexVal (c : Char) : Option Nat :=
  if 48 ≤ c.toNat && c.toNat ≤ 57 then some (c.toNat - 48)
  else if 97 ≤ c.toNat && c.toNat ≤ 102 then some (c.toNat - 87)
  else if 65 ≤ c.toNat && c.toNat ≤ 70 then some (c.toNat - 55)
  else none

/-- Decode a `\uXXXX` escape from its four hex digit characters, prepending
the decoded character to the continuation's result. -/
def parseUnicodeEsc (x1 x2 x3 x4 : Char) (k : Option (List Char × List Char)) :
    Option (List Char × List Char) :=
  match hexVal x1, hexVal x2, hexVal x3, hexVal x4 with
  | some a, some b, some c, some d =>
    k.map (fun p => (Char.ofNat (((a * 16 + b) * 16 + c) * 16 + d) :: p.1, p.2))
  | _, _, _, _ => none

/-- Parse the body of a string literal (after the opening quote), undoing the
escapes `JSON.parse` accepts, up to and including the closing quote.  Returns
the decoded characters and the remaining input. -/
def parseStringBody : List Char → Option (List Char × List Char)
  | [] => none
  | c :: cs =>
    if c = '"' then some ([], cs)
    else if c = '\\' then
      match cs with
      | [] => none
      | e :: cs2 =>
        if e = '"' then (parseStringBody cs2).map (fun p => ('"' :: p.1, p.2))
        else if e = '\\' then (parseStringBody cs2).map (fun p => ('\\' :: p.1, p.2))
        else if e = '/' then (parseStringBody cs2).map (fun p => ('/' :: p.1, p.2))
        else if e = 'b' then (parseStringBody cs2).map (fun p => ('\x08' :: p.1, p.2))
        else if e = 'f' then (parseStringBody cs2).map (fun p => ('\x0c' :: p.1, p.2))
        else if e = 'n' then (parseStringBody cs2).map (fun p => ('\x0a' :: p.1, p.2))
        else if e = 'r' then (parseStringBody cs2).map (fun p => ('\x0d' :: p.1, p.2))
        else if e = 't' then (parseStringBody cs2).map (fun p => ('\x09' :: p.1, p.2))
        else if e = 'u' then
          match cs2 with
          | x1 :: x2 :: x3 :: x4 :: cs3 => parseUnicodeEsc x1 x2 x3 x4 (parseStringBody cs3)
          | _ => none
        else none
    else (parseStringBody cs).map (fun p => (c :: p.1, p.2))

mutual
/-- Parse one JSON value.  The fuel decreases on every nested call, so the
function is total; the round-trip theorems show that input length plus one is
always enough fuel. -/
def parseVal : Nat → List Char → Option (JVal × List Char)
  | 0, _ => none
  | _ + 1, [] => none
  | fuel + 1, c :: cs =>
    if c = '-' then
      match parseNatNum cs with
      | some (n, rest) => some (.num (-(n : Int)), rest)
      | none => none
    else if isDigitChar c then
      match parseNatNum (c :: cs) with
      | some (n, rest) => some (.num (n : Int), rest)
      | none => none
    else if c = '"' then
      match parseStringBody cs with
      | some (content, rest) => some (.str (String.mk content), rest)
      | none => none
    else if c = 'n' then
      match cs with
      | 'u' :: 'l' :: 'l' :: rest => some (.null, rest)
      | _ => none
    else if c = 't' then
      match cs with
      | 'r' :: 'u' :: 'e' :: rest => some (.bool true, rest)
      | _ => none
    else if c = 'f' then
      match cs with
      | 'a' :: 'l' :: 's' :: 'e' :: rest => some (.bool false, rest)
      | _ => none
    else if c = '[' then
      match cs with
      | [] => none
      | c2 :: cs2 =>
        if c2 = ']' then some (.arr [], cs2)
        else
          match parseItems fuel (c2 :: cs2) with
          | some (vs, rest) => some (.arr vs, rest)
          | none => none
    else if c = '\x7b' then
      match cs with
      | [] => none
      | c2 :: cs2 =>
        if c2 = '\x7d' then some (.obj [], cs2)
        else
          match parseFields fuel (c2 :: cs2) with
          | some (fs, rest) => some (.obj fs, rest)
          | none => none
    else none

/-- Parse the elements of a non-empty array, up to and including the closing
bracket. -/
def parseItems : Nat → List Char → Option (List JVal × List Char)
  | 0, _ => none
  | fuel + 1, cs =>
    match parseVal fuel cs with
    | some (v, rest) =>
      match rest with
      | [] => none
      | r :: rest2 =>
        if r = ',' then
          match parseItems fuel rest2 with
          | some (vs, rest3) => some (v :: vs, rest3)
          | none => none
        else if r = ']' then some ([v], rest2)
        else none
    | none => none

/-- Parse the fields of a non-empty object, up to and including the closing
brace. -/
def parseFields : Nat → List Char → Option (List (String × JVal) × List Char)
  | 0, _ => none
  | fuel + 1, cs =>
    match cs with
    | [] => none
    | c :: cs1 =>
      if c = '"' then
        match parseStringBody cs1 with
        | some (key, cs2) =>
          (match cs2 with
           | [] => none
           | c2 :: cs3 =>
             if c2 = ':' then
               match parseVal fuel cs3 with
               | some (v, rest) =>
                 (match rest with
                  | [] => none
                  | r :: rest2 =>
                    if r = ',' then
                      match parseFields fuel rest2 with
                      | some (fs, rest3) => some ((String.mk key, v) :: fs, rest3)
                      | none => none
                    else if r = '\x7d' then some ([(String.mk key, v)], rest2)
                    else none)
               | none => none
             else none)
        | none => none
      else none
end

/-- The model of `JSON.parse` on a whole input string: parse one value and
require the input to be exhausted. -/
def jsonParse (s : String) : Option JVal :=
  match parseVal (s.length + 1) s.data with
  | some (v, []) => some v
  | _ => none

/-! ## Number codec lemmas -/

theorem digitChar_spec : ∀ d, d < 10 → isDigitChar (digitChar d) = true ∧ digitVal (digitChar d) = d := by decide

theorem natDigits_eq (n : Nat) :
    natDigits n = if n < 10 then [digitChar n] else natDigits (n / 10) ++ [digitChar (n % 10)] := by
  rw [natDigits]
  exact dite_eq_ite ..

theorem natDigits_cons (n : Nat) : ∃ c t, natDigits n = c :: t ∧ isDigitChar c = true := by
  induction n using Nat.strong_induction_on with
  | _ n ih =>
    rw [natDigits_eq]
    by_cases h : n < 10
    · exact ⟨digitChar n, [], by simp [h], (digitChar_spec n h).1⟩
    · obtain ⟨c, t, hct, hc⟩ := ih (n / 10) (Nat.div_lt_self (by omega) (by omega))
      exact ⟨c, t ++ [digitChar (n % 10)], by simp [h, hct], hc⟩

theorem parseDigitsRun_natDigits (n : Nat) : ∀ (a : Nat) (rest : List Char),
    parseDigitsRun a (natDigits n ++ rest)
      = parseDigitsRun (a * 10 ^ (natDigits n).length + n) rest := by
  induction n using Nat.strong_induction_on with
  | _ n ih =>
    intro a rest
    rw [natDigits_eq]
    by_cases h : n < 10
    · obtain ⟨hd, hv⟩ := digitChar_spec n h
      simp [h, parseDigitsRun, hd, hv]
    · obtain ⟨hd, hv⟩ := digitChar_spec (n % 10) (Nat.mod_lt _ (by omega))
      simp only [if_neg h, List.append_assoc, List.cons_append, List.nil_append]
      rw [ih (n / 10) (Nat.div_lt_self (by omega) (by omega))]
      simp only [parseDigitsRun, hd, if_pos, hv, List.length_append, List.length_singleton]
      have harith : (a * 10 ^ (natDigits (n / 10)).length + n / 10) * 10 + n % 10
          = a * 10 ^ ((natDigits (n / 10)).length + 1) + n := by
        rw [pow_succ]
        have := Nat.div_add_mod n 10
        ring_nf
        omega
      rw [harith]

/-- A list that cannot extend a decimal numeral: empty or headed by a non-digit. -/
def digitBoundary : List Char → Bool
  | [] => true
  | c :: _ => !isDigitChar c

theorem parseDigitsRun_stop (a : Nat) (rest : List Char) (h : digitBoundary rest = true) :
    parseDigitsRun a rest = (a, rest) := by
  cases rest with
  | nil => rfl
  | cons c t =>
    simp only [digitBoundary, Bool.not_eq_true'] at h
    simp [parseDigitsRun, h]

theorem parseNatNum_natDigits (n : Nat) (rest : List Char) (h : digitBoundary rest = true) :
    parseNatNum (natDigits n ++ rest) = some (n, rest) := by
  obtain ⟨c, t, hct, hc⟩ := natDigits_cons n
  rw [hct, List.cons_append, parseNatNum, if_pos hc, ← List.cons_append, ← hct,
    parseDigitsRun_natDigits, parseDigitsRun_stop _ _ h]
  simp

/-! ## String codec lemmas -/

theorem hexVal_hexDigitChar : ∀ d, d < 16 → hexVal (hexDigitChar d) = some d := by decide

theorem parseUnicodeEsc_eq {x1 x2 x3 x4 : Char} {a b c d : Nat}
    (k : Option (List Char × List Char))
    (e1 : hexVal x1 = some a) (e2 : hexVal x2 = some b)
    (e3 : hexVal x3 = some c) (e4 : hexVal x4 = some d) :
    parseUnicodeEsc x1 x2 x3 x4 k
      = k.map (fun p => (Char.ofNat (((a * 16 + b) * 16 + c) * 16 + d) :: p.1, p.2)) := by
  unfold parseUnicodeEsc
  rw [e1, e2, e3, e4]

theorem parseStringBody_escChar (c : Char) (rest : List Char) :
    parseStringBody (escChar c ++ rest)
      = (parseStringBody rest).map (fun p => (c :: p.1, p.2)) := by
  rw [escChar]
  split_ifs with h1 h2 h3 h4 h5 h6 h7 h8
  · subst h1
    rw [parseStringBody.eq_def]
    rfl
  · subst h2
    rw [parseStringBody.eq_def]
    rfl
  · subst h3
    rw [parseStringBody.eq_def]
    rfl
  · subst h4
    rw [parseStringBody.eq_def]
    rfl
  · subst h5
    rw [parseStringBody.eq_def]
    rfl
  · subst h6
    rw [parseStringBody.eq_def]
    rfl
  · subst h7
    rw [parseStringBody.eq_def]
    rfl
  · have hstep : parseStringBody
        ('\\' :: 'u' :: '0' :: '0' :: hexDigitChar (c.toNat / 16)
          :: hexDigitChar (c.toNat % 16) :: rest)
        = parseUnicodeEsc '0' '0' (hexDigitChar (c.toNat / 16)) (hexDigitChar (c.toNat % 16))
            (parseStringBody rest) := by
      rw [parseStringBody.eq_def]
      rfl
    rw [List.cons_append, List.cons_append, List.cons_append, List.cons_append,
      List.cons_append, List.cons_append, List.nil_append, hstep,
      parseUnicodeEsc_eq _ (show hexVal '0' = some 0 by decide) (show hexVal '0' = some 0 by decide)
        (hexVal_hexDigitChar _ (by omega)) (hexVal_hexDigitChar _ (Nat.mod_lt _ (by omega)))]
    have harith : ((0 * 16 + 0) * 16 + c.toNat / 16) * 16 + c.toNat % 16 = c.toNat := by omega
    rw [harith, Char.ofNat_toNat]
  · rw [List.cons_append, List.nil_append, parseStringBody.eq_def]
    simp only []
    rw [if_neg h1, if_neg h2]

theorem parseStringBody_escBody : ∀ (cs rest : List Char),
    parseStringBody (escBody cs ++ '"' :: rest) = some (cs, rest) := by
  intro cs
  induction cs with
  | nil =>
    intro rest
    rw [escBody, List.nil_append, parseStringBody.eq_def]
    rfl
  | cons c cs ih =>
    intro rest
    rw [escBody, List.append_assoc, parseStringBody_escChar, ih]
    rfl

/-- One-step unfolding of `parseVal` at successor fuel on a non-empty input. -/
theorem parseVal_succ (fuel : Nat) (c : Char) (cs : List Char) :
    parseVal (fuel + 1) (c :: cs)
      = (if c = '-' then
          match parseNatNum cs with
          | some (n, rest) => some (.num (-(n : Int)), rest)
          | none => none
        else if isDigitChar c then
          match parseNatNum (c :: cs) with
          | some (n, rest) => some (.num (n : Int), rest)
          | none => none
        else if c = '"' then
          match parseStringBody cs with
          | some (content, rest) => some (.str (String.mk content), rest)
          | none => none
        else if c = 'n' then
          match cs with
          | 'u' :: 'l' :: 'l' :: rest => some (.null, rest)
          | _ => none
        else if c = 't' then
          match cs with
          | 'r' :: 'u' :: 'e' :: rest => some (.bool true, rest)
          | _ => none
        else if c = 'f' then
          match cs with
          | 'a' :: 'l' :: 's' :: 'e' :: rest => some (.bool false, rest)
          | _ => none
        else if c = '[' then
          match cs with
          | [] => none
          | c2 :: cs2 =>
            if c2 = ']' then some (.arr [], cs2)
            else
              match parseItems fuel (c2 :: cs2) with
              | some (vs, rest) => some (.arr vs, rest)
              | none => none
        else if c = '\x7b' then
          match cs with
          | [] => none
          | c2 :: cs2 =>
            if c2 = '\x7d' then some (.obj [], cs2)
            else
              match parseFields fuel (c2 :: cs2) with
              | some (fs, rest) => some (.obj fs, rest)
              | none => none
        else none) := rfl

/-- One-step unfolding of `parseItems` at successor fuel. -/
theorem parseItems_succ (fuel : Nat) (cs : List Char) :
    parseItems (fuel + 1) cs
      = (match parseVal fuel cs with
         | some (v, rest) =>
           match rest with
           | [] => none
           | r :: rest2 =>
             if r = ',' then
               match parseItems fuel rest2 with
               | some (vs, rest3) => some (v :: vs, rest3)
               | none => none
             else if r = ']' then some ([v], rest2)
             else none
         | none => none) := rfl

/-- One-step unfolding of `parseFields` at successor fuel. -/
theorem parseFields_succ (fuel : Nat) (cs : List Char) :
    parseFields (fuel + 1) cs
      = (match cs with
         | [] => none
         | c :: cs1 =>
           if c = '"' then
             match parseStringBody cs1 with
             | some (key, cs2) =>
               (match cs2 with
                | [] => none
                | c2 :: cs3 =>
                  if c2 = ':' then
                    match parseVal fuel cs3 with
                    | some (v, rest) =>
                      (match rest with
                       | [] => none
                       | r :: rest2 =>
                         if r = ',' then
                           match parseFields fuel rest2 with
                           | some (fs, rest3) => some ((String.mk key, v) :: fs, rest3)
                           | none => none
                         else if r = '\x7d' then some ([(String.mk key, v)], rest2)
                         else none)
                    | none => none
                  else none)
             | none => none
           else none) := rfl

/-! ## Value-level helper lemmas for the round trip -/

theorem digit_ne_minus {c : Char} (h : isDigitChar c = true) : ¬ c = '-' :=
  fun he => absurd h (by subst he; decide)

theorem digit_ne_rbracket {c : Char} (h : isDigitChar c = true) : ¬ c = ']' :=
  fun he => absurd h (by subst he; decide)

theorem parseVal_digitHead (fuel : Nat) (c : Char) (cs : List Char) (hd : isDigitChar c = true) :
    parseVal (fuel + 1) (c :: cs)
      = (match parseNatNum (c :: cs) with
         | some (n, rest) => some (.num (n : Int), rest)
         | none => none) := by
  rw [parseVal_succ, if_neg (digit_ne_minus hd), if_pos hd]

theorem parseVal_renderInt (n : Int) (fuel : Nat) (rest : List Char)
    (h : digitBoundary rest = true) :
    parseVal (fuel + 1) (renderInt n ++ rest) = some (.num n, rest) := by
  by_cases hn : n < 0
  · have hr : renderInt n ++ rest = '-' :: (natDigits n.natAbs ++ rest) := by
      simp only [renderInt, if_pos hn, List.cons_append]
    rw [hr, parseVal_succ, if_pos (show ('-' : Char) = '-' from rfl),
      parseNatNum_natDigits _ _ h]
    have hcast : -((n.natAbs : Int)) = n := by omega
    simp only []
    rw [hcast]
  · have hr : renderInt n ++ rest = natDigits n.toNat ++ rest := by
      simp only [renderInt, if_neg hn]
    obtain ⟨c, t, hct, hc⟩ := natDigits_cons n.toNat
    rw [hr, hct, List.cons_append, parseVal_digitHead _ _ _ hc, ← List.cons_append, ← hct,
      parseNatNum_natDigits _ _ h]
    have hcast : ((n.toNat : Nat) : Int) = n := by omega
    simp only []
    rw [hcast]

theorem jsonRender_head (v : JVal) : ∃ c t, jsonRender v = c :: t ∧ ¬ c = ']' := by
  cases v with
  | null => exact ⟨'n', _, rfl, by decide⟩
  | bool b =>
    cases b with
    | true => exact ⟨'t', _, rfl, by decide⟩
    | false => exact ⟨'f', _, rfl, by decide⟩
  | str s => exact ⟨'"', _, rfl, by decide⟩
  | arr es =>
    cases es with
    | nil => exact ⟨'[', _, rfl, by decide⟩
    | cons e es => exact ⟨'[', _, rfl, by decide⟩
  | obj fs =>
    cases fs with
    | nil => exact ⟨'\x7b', _, rfl, by decide⟩
    | cons f fs => exact ⟨'\x7b', _, rfl, by decide⟩
  | num n =>
    by_cases hn : n < 0
    · refine ⟨'-', natDigits n.natAbs, ?_, by decide⟩
      show renderInt n = _
      simp only [renderInt, if_pos hn]
    · obtain ⟨c, t, hct, hc⟩ := natDigits_cons n.toNat
      refine ⟨c, t, ?_, digit_ne_rbracket hc⟩
      show renderInt n = _
      simp only [renderInt, if_neg hn, hct]

theorem jsonRender_length_pos (v : JVal) : 1 ≤ (jsonRender v).length := by
  obtain ⟨c, t, hct, _⟩ := jsonRender_head v
  rw [hct]
  simp

theorem digitBoundary_renderTail (vs : List JVal) (rest : List Char) :
    digitBoundary (jsonRenderTail vs ++ ']' :: rest) = true := by
  cases vs with
  | nil => rfl
  | cons v vs => rfl

theorem digitBoundary_renderFieldTail (fs : List (String × JVal)) (rest : List Char) :
    digitBoundary (jsonRenderFieldTail fs ++ '\x7d' :: rest) = true := by
  cases fs with
  | nil => rfl
  | cons f fs => rfl

/-! ## Shape lemmas for rendered composites -/

theorem jsonRender_arr_cons (v : JVal) (vs : List JVal) (rest : List Char) :
    jsonRender (.arr (v :: vs)) ++ rest
      = '[' :: (jsonRender v ++ (jsonRenderTail vs ++ ']' :: rest)) := by
  show ('[' :: (jsonRender v ++ (jsonRenderTail vs ++ [']']))) ++ rest = _
  simp

theorem jsonRender_obj_cons (f : String × JVal) (fs : List (String × JVal)) (rest : List Char) :
    jsonRender (.obj (f :: fs)) ++ rest
      = '\x7b' :: (jsonRenderField f ++ (jsonRenderFieldTail fs ++ '\x7d' :: rest)) := by
  show ('\x7b' :: (jsonRenderField f ++ (jsonRenderFieldTail fs ++ ['\x7d']))) ++ rest = _
  simp

theorem jsonRenderTail_cons (x : JVal) (xs : List JVal) (tail : List Char) :
    jsonRenderTail (x :: xs) ++ tail
      = ',' :: (jsonRender x ++ (jsonRenderTail xs ++ tail)) := by
  show (',' :: (jsonRender x ++ jsonRenderTail xs)) ++ tail = _
  simp

theorem jsonRenderField_append (k : String) (v : JVal) (tail : List Char) :
    jsonRenderField (k, v) ++ tail
      = '"' :: (escBody k.data ++ ('"' :: ':' :: (jsonRender v ++ tail))) := by
  show ('"' :: (escBody k.data ++ ('"' :: ':' :: jsonRender v))) ++ tail = _
  simp

theorem jsonRenderFieldTail_cons (f : String × JVal) (fs : List (String × JVal))
    (tail : List Char) :
    jsonRenderFieldTail (f :: fs) ++ tail
      = ',' :: (jsonRenderField f ++ (jsonRenderFieldTail fs ++ tail)) := by
  show (',' :: (jsonRenderField f ++ jsonRenderFieldTail fs)) ++ tail = _
  simp

theorem jsonRender_arr_cons_length (v : JVal) (vs : List JVal) :
    (jsonRender (.arr (v :: vs))).length
      = (jsonRender v).length + (jsonRenderTail vs).length + 2 := by
  show ('[' :: (jsonRender v ++ (jsonRenderTail vs ++ [']']))).length = _
  simp
  try omega

theorem jsonRender_obj_cons_length (f : String × JVal) (fs : List (String × JVal)) :
    (jsonRender (.obj (f :: fs))).length
      = (jsonRenderField f).length + (jsonRenderFieldTail fs).length + 2 := by
  show ('\x7b' :: (jsonRenderField f ++ (jsonRenderFieldTail fs ++ ['\x7d']))).length = _
  simp
  try omega

theorem jsonRenderTail_cons_length (x : JVal) (xs : List JVal) :
    (jsonRenderTail (x :: xs)).length
      = (jsonRender x).length + (jsonRenderTail xs).length + 1 := by
  show (',' :: (jsonRender x ++ jsonRenderTail xs)).length = _
  simp
  try omega

theorem jsonRenderField_length (k : String) (v : JVal) :
    (jsonRenderField (k, v)).length
      = (escBody k.data).length + (jsonRender v).length + 3 := by
  show ('"' :: (escBody k.data ++ ('"' :: ':' :: jsonRender v))).length = _
  simp
  try omega

theorem jsonRenderFieldTail_cons_length (f : String × JVal) (fs : List (String × JVal)) :
    (jsonRenderFieldTail (f :: fs)).length
      = (jsonRenderField f).length + (jsonRenderFieldTail fs).length + 1 := by
  show (',' :: (jsonRenderField f ++ jsonRenderFieldTail fs)).length = _
  simp
  try omega

/-! ## The codec round trip -/

mutual
/-- Parsing a rendered value (with enough fuel, before a non-digit remainder)
recovers the value exactly. -/
theorem roundTripVal : ∀ (v : JVal) (fuel : Nat) (rest : List Char),
    (jsonRender v).length < fuel → digitBoundary rest = true →
    parseVal fuel (jsonRender v ++ rest) = some (v, rest)
  | .null, 0, rest, hf, _ => absurd hf (by omega)
  | .null, fuel + 1, rest, _, _ => rfl
  | .bool true, 0, rest, hf, _ => absurd hf (by omega)
  | .bool true, fuel + 1, rest, _, _ => rfl
  | .bool false, 0, rest, hf, _ => absurd hf (by omega)
  | .bool false, fuel + 1, rest, _, _ => rfl
  | .num n, 0, rest, hf, _ => absurd hf (by omega)
  | .num n, fuel + 1, rest, _, hb => parseVal_renderInt n fuel rest hb
  | .str s, 0, rest, hf, _ => absurd hf (by omega)
  | .str s, fuel + 1, rest, _, _ => by
    have harg : jsonRender (.str s) ++ rest = '"' :: (escBody s.data ++ '"' :: rest) := by
      show ('"' :: (escBody s.data ++ ['"'])) ++ rest = _
      simp
    have hstep : parseVal (fuel + 1) ('"' :: (escBody s.data ++ '"' :: rest))
        = (match parseStringBody (escBody s.data ++ '"' :: rest) with
           | some (content, r) => some (.str (String.mk content), r)
           | none => none) := rfl
    rw [harg, hstep, parseStringBody_escBody]
  | .arr [], 0, rest, hf, _ => absurd hf (by omega)
  | .arr [], fuel + 1, rest, _, _ => rfl
  | .arr (v :: vs), 0, rest, hf, _ => absurd hf (by omega)
  | .arr (v :: vs), fuel + 1, rest, hf, hb => by
    obtain ⟨c0, t0, h0, hc0⟩ := jsonRender_head v
    rw [jsonRender_arr_cons]
    have hlen := jsonRender_arr_cons_length v vs
    have harg : jsonRender v ++ (jsonRenderTail vs ++ ']' :: rest)
        = c0 :: (t0 ++ (jsonRenderTail vs ++ ']' :: rest)) := by
      rw [h0, List.cons_append]
    have hstep : parseVal (fuel + 1) ('[' :: (c0 :: (t0 ++ (jsonRenderTail vs ++ ']' :: rest))))
        = (if c0 = ']' then some (.arr [], t0 ++ (jsonRenderTail vs ++ ']' :: rest))
           else
             match parseItems fuel (c0 :: (t0 ++ (jsonRenderTail vs ++ ']' :: rest))) with
             | some (vs', rest') => some (.arr vs', rest')
             | none => none) := rfl
    rw [harg, hstep, if_neg hc0, ← harg,
      roundTripItems v vs fuel rest (by omega) hb]
  | .obj [], 0, rest, hf, _ => absurd hf (by omega)
  | .obj [], fuel + 1, rest, _, _ => rfl
  | .obj (f :: fs), 0, rest, hf, _ => absurd hf (by omega)
  | .obj (f :: fs), fuel + 1, rest, hf, hb => by
    rw [jsonRender_obj_cons]
    have hlen := jsonRender_obj_cons_length f fs
    have hfield : jsonRenderField f ++ (jsonRenderFieldTail fs ++ '\x7d' :: rest)
        = '"' :: (escBody f.1.data
            ++ ('"' :: ':' :: (jsonRender f.2 ++ (jsonRenderFieldTail fs ++ '\x7d' :: rest)))) := by
      rw [show f = (f.1, f.2) from rfl, jsonRenderField_append]
    have hstep : parseVal (fuel + 1)
        ('\x7b' :: ('"' :: (escBody f.1.data
            ++ ('"' :: ':' :: (jsonRender f.2 ++ (jsonRenderFieldTail fs ++ '\x7d' :: rest))))))
        = (if ('"' : Char) = '\x7d' then
             some (.obj [], escBody f.1.data
               ++ ('"' :: ':' :: (jsonRender f.2 ++ (jsonRenderFieldTail fs ++ '\x7d' :: rest))))
           else
             match parseFields fuel ('"' :: (escBody f.1.data
                 ++ ('"' :: ':' :: (jsonRender f.2
                     ++ (jsonRenderFieldTail fs ++ '\x7d' :: rest))))) with
             | some (fs', rest') => some (.obj fs', rest')
             | none => none) := rfl
    rw [hfield, hstep, if_neg (by decide : ¬ ('"' : Char) = '\x7d'), ← hfield,
      roundTripFields f fs fuel rest (by omega) hb]
  termination_by v _ _ _ _ => sizeOf v
  decreasing_by
    all_goals first
      | decreasing_tactic
      | (simp_wf
         rcases f with ⟨k2, v2⟩
         simp
         omega)

/-- Parsing the rendered elements of a non-empty array (with the closing
bracket appended) recovers the element list. -/
theorem roundTripItems : ∀ (v : JVal) (vs : List JVal) (fuel : Nat) (rest : List Char),
    (jsonRender v).length + (jsonRenderTail vs).length + 1 < fuel →
    digitBoundary rest = true →
    parseItems fuel (jsonRender v ++ (jsonRenderTail vs ++ ']' :: rest))
      = some (v :: vs, rest)
  | v, vs, 0, rest, hf, _ => absurd hf (by omega)
  | v, [], fuel + 1, rest, hf, hb => by
    rw [parseItems_succ,
      roundTripVal v fuel (jsonRenderTail [] ++ ']' :: rest) (by omega)
        (digitBoundary_renderTail [] rest)]
    rfl
  | v, x :: xs, fuel + 1, rest, hf, hb => by
    have hlen := jsonRenderTail_cons_length x xs
    rw [parseItems_succ,
      roundTripVal v fuel (jsonRenderTail (x :: xs) ++ ']' :: rest)
        (by omega) (digitBoundary_renderTail (x :: xs) rest)]
    have htail : jsonRenderTail (x :: xs) ++ ']' :: rest
        = ',' :: (jsonRender x ++ (jsonRenderTail xs ++ ']' :: rest)) :=
      jsonRenderTail_cons x xs (']' :: rest)
    rw [htail]
    simp only []
    simp only [if_true]
    rw [roundTripItems x xs fuel rest (by omega) hb]
  termination_by v vs _ _ _ _ => sizeOf v + sizeOf vs

/-- Parsing the rendered fields of a non-empty object (with the closing brace
appended) recovers the field list. -/
theorem roundTripFields : ∀ (f : String × JVal) (fs : List (String × JVal))
    (fuel : Nat) (rest : List Char),
    (jsonRenderField f).length + (jsonRenderFieldTail fs).length + 1 < fuel →
    digitBoundary rest = true →
    parseFields fuel (jsonRenderField f ++ (jsonRenderFieldTail fs ++ '\x7d' :: rest))
      = some (f :: fs, rest)
  | f, fs, 0, rest, hf, _ => absurd hf (by omega)
  | (k, v), [], fuel + 1, rest, hf, hb => by
    have hflen := jsonRenderField_length k v
    rw [jsonRenderField_append, parseFields_succ]
    simp only []
    simp only [if_true]
    rw [parseStringBody_escBody]
    simp only []
    simp only [if_true]
    rw [roundTripVal v fuel (jsonRenderFieldTail [] ++ '\x7d' :: rest) (by omega)
        (digitBoundary_renderFieldTail [] rest)]
    rfl
  | (k, v), f2 :: fs, fuel + 1, rest, hf, hb => by
    have hflen := jsonRenderField_length k v
    have hftlen := jsonRenderFieldTail_cons_length f2 fs
    rw [jsonRenderField_append, parseFields_succ]
    simp only []
    simp only [if_true]
    rw [parseStringBody_escBody]
    simp only []
    simp only [if_true]
    rw [roundTripVal v fuel (jsonRenderFieldTail (f2 :: fs) ++ '\x7d' :: rest) (by omega)
        (digitBoundary_renderFieldTail (f2 :: fs) rest)]
    have htail : jsonRenderFieldTail (f2 :: fs) ++ '\x7d' :: rest
        = ',' :: (jsonRenderField f2 ++ (jsonRenderFieldTail fs ++ '\x7d' :: rest)) :=
      jsonRenderFieldTail_cons f2 fs ('\x7d' :: rest)
    rw [htail]
    simp only []
    simp only [if_true]
    rw [roundTripFields f2 fs fuel rest (by omega) hb]
  termination_by f fs _ _ _ _ => sizeOf f.2 + sizeOf fs
  decreasing_by
    all_goals first
      | decreasing_tactic
      | (simp_wf
         rcases f2 with ⟨k3, v3⟩
         simp
         omega)
end

/-- Top-level codec round trip: `jsonParse` inverts `jsonRender` on whole
strings. -/
theorem jsonParse_jsonRender (v : JVal) : jsonParse (String.mk (jsonRender v)) = some v := by
  have h := roundTripVal v ((jsonRender v).length + 1) [] (by omega) rfl
  rw [List.append_nil] at h
  unfold jsonParse
  rw [show (String.mk (jsonRender v)).data = jsonRender v from rfl,
    show (String.mk (jsonRender v)).length = (jsonRender v).length from rfl, h]

/-! ## The message protocol

Translated from `server/src/communication.ts` (shown in `MCP-README.md`
lines 104-224): the `MessageType` enum, the `CommunicationMessage` union,
`parseMessage` and `stringifyMessage`. -/

/-- The wire values of the `MessageType` enum. -/
def MessageType.EXECUTE_COMMAND : String := "execute_command"

/-- Wire value of `MessageType.GET_COMMANDS`. -/
def MessageType.GET_COMMANDS : String := "get_commands"

/-- Wire value of `MessageType.COMMAND_RESULT`. -/
def MessageType.COMMAND_RESULT : String := "command_result"

/-- Wire value of `MessageType.COMMAND_ERROR`. -/
def MessageType.COMMAND_ERROR : String := "command_error"

/-- Wire value of `MessageType.COMMAND_OUTPUT`. -/
def MessageType.COMMAND_OUTPUT : String := "command_output"

/-- Wire value of `MessageType.COMMANDS_LIST`. -/
def MessageType.COMMANDS_LIST : String := "commands_list"

/-- The `CommunicationMessage` union of `communication.ts`.  Optional fields
(`args?`, `requestId?` on `ExecuteCommandMessage`) are `Option`s; payloads
typed `any`/`Output` in TypeScript are arbitrary JSON values. -/
inductive CommunicationMessage where
  | executeCommand (command : String) (args : Option JVal) (requestId : Option String)
  | commandResult (requestId : String) (output : JVal)
  | commandError (requestId : String) (error : String)
  | commandOutput (requestId : String) (output : JVal)
  | getCommands
  | commandsList (commands : List (String × String))

/-- The JSON object a `CommunicationMessage` value is, as `JSON.stringify`
sees it at each call site: field order matches the object literals in the
source, and absent optional fields are omitted (as `JSON.stringify` omits
`undefined` properties). -/
def encodeMsg : CommunicationMessage → JVal
  | .executeCommand c a r =>
    .obj ([("type", .str MessageType.EXECUTE_COMMAND), ("command", .str c)]
      ++ (match a with | some v => [("args", v)] | none => [])
      ++ (match r with | some s => [("requestId", .str s)] | none => []))
  | .commandResult r o =>
    .obj [("type", .str MessageType.COMMAND_RESULT), ("requestId", .str r), ("output", o)]
  | .commandError r e =>
    .obj [("type", .str MessageType.COMMAND_ERROR), ("requestId", .str r), ("error", .str e)]
  | .commandOutput r o =>
    .obj [("type", .str MessageType.COMMAND_OUTPUT), ("requestId", .str r), ("output", o)]
  | .getCommands => .obj [("type", .str MessageType.GET_COMMANDS)]
  | .commandsList cs =>
    .obj [("type", .str MessageType.COMMANDS_LIST),
      ("commands", .arr (cs.map (fun nd =>
        .obj [("name", .str nd.1), ("description", .str nd.2)])))]

/-- Model of `stringifyMessage` (`communication.ts` line 222):
`JSON.stringify(message)` on the message's object form. -/
def stringifyMessage (m : CommunicationMessage) : String :=
  String.mk (jsonRender (encodeMsg m))

/-- Model of `JSON.parse` as a fallible operation: JavaScript's parser throws
a `SyntaxError` on malformed input, modelled as `Except`. -/
def jsonParseExc (s : String) : Except String JVal :=
  match jsonParse s with
  | some v => .ok v
  | none => .error "SyntaxError: Unexpected token in JSON"

/-- Model of `parseMessage` (`communication.ts` lines 208-215): `try` the cast
`JSON.parse(message) as CommunicationMessage`, `catch` any error and return
`null`.  The parsed JSON value is returned as-is; no validation is performed. -/
def parseMessage (s : String) : Option JVal :=
  match jsonParseExc s with
  | .ok v => some v
  | .error _ => none

/-! ## JavaScript value helpers used by the bridge code -/

/-- JavaScript property lookup (`message.key`) on a parsed JSON value:
`none` models `undefined`. -/
def jsProp (v : JVal) (key : String) : Option JVal :=
  match v with
  | .obj fs => fs.lookup key
  | _ => none

/-- JavaScript `"key" in value`. -/
def jsHasProp (v : JVal) (key : String) : Bool :=
  match v with
  | .obj fs => fs.any (fun kv => kv.1 == key)
  | _ => false

/-- Whether `value.key === s` holds for a string `s` (strict equality is false
when the property is absent or not a string). -/
def propIsStr (v : JVal) (key s : String) : Bool :=
  match jsProp v key with
  | some (.str t) => t == s
  | _ => false

/-- JavaScript `typeof` on a defined value. -/
def jsTypeofVal : JVal → String
  | .null => "object"
  | .bool _ => "boolean"
  | .num _ => "number"
  | .str _ => "string"
  | .arr _ => "object"
  | .obj _ => "object"

/-- JavaScript `typeof` on a possibly-`undefined` value. -/
def jsTypeof : Option JVal → String
  | none => "undefined"
  | some v => jsTypeofVal v

/-- JavaScript `Array.isArray` on a possibly-`undefined` value. -/
def jsIsArray : Option JVal → Bool
  | some (.arr _) => true
  | _ => false

/-- Whether a possibly-`undefined` value is exactly `null`. -/
def jsIsNull : Option JVal → Bool
  | some .null => true
  | _ => false

/-- Whether a defined value is `null`. -/
def jsIsNullVal : JVal → Bool
  | .null => true
  | _ => false

/-- JavaScript string interpolation of a primitive value, as in a template
literal.  The composite cases mirror JavaScript's `Array.prototype.toString` /
`[object Object]` only where the modelled code can never reach them. -/
def jsPrimToString : JVal → String
  | .str s => s
  | .num n => String.mk (renderInt n)
  | .bool true => "true"
  | .bool false => "false"
  | .null => "null"
  | .arr _ => ""
  | .obj _ => "[object Object]"

namespace McpNodeServer

/-- Argument normalization of the inner `executeWithArgs` helper of
`McpNodeServer.executeCommand` (`McpNodeServer.ts` lines 110-135), transcribed
condition for condition: `Array.isArray(args)` spreads the array;
`args !== null && typeof args === "object"` passes the object as the single
parameter; `args === undefined || args === null` passes no parameters;
otherwise the primitive is passed as the single parameter.  The result is the
parameter list the capability function is invoked with. -/
def executeWithArgs (args : Option JVal) : List JVal :=
  if jsIsArray args then
    match args with
    | some (.arr xs) => xs
    | _ => []
  else if !jsIsNull args && jsTypeof args == "object" then
    match args with
    | some v => [v]
    | none => []
  else if args.isNone || jsIsNull args then []
  else
    match args with
    | some v => [v]
    | none => []

/-- The streaming-output line `executeWithArgs` emits (via `captureOutput`)
before invoking the capability, with the text of each branch. -/
def executingText (args : Option JVal) : String :=
  if jsIsArray args then
    "Executing with spread array args: "
      ++ (match args with | some v => String.mk (jsonRender v) | none => "")
  else if !jsIsNull args && jsTypeof args == "object" then
    "Executing with object args: "
      ++ (match args with | some v => String.mk (jsonRender v) | none => "")
  else if args.isNone || jsIsNull args then "Executing with no args"
  else "Executing with primitive arg: "
      ++ (match args with | some v => jsPrimToString v | none => "")

/-- The result formatting of `sendCommandResult` (`McpNodeServer.ts` lines
274-296): an object that is not `null` is sent unchanged when it already has a
`result` property and is otherwise wrapped in
`(result, status: "success", command)`; every other value is wrapped. -/
def formattedResult (result : JVal) (command : String) : JVal :=
  if jsTypeofVal result == "object" && !jsIsNullVal result then
    if jsHasProp result "result" then result
    else .obj [("result", result), ("status", .str "success"), ("command", .str command)]
  else .obj [("result", result), ("status", .str "success"), ("command", .str command)]

/-- Abstraction of the capability invocation inside `executeCommand`: the
awaited call either produces a value or throws with a message. -/
inductive ExecOutcome where
  | success (value : JVal)
  | failure (message : String)

/-- The messages `McpNodeServer` sends to the server for one
`EXECUTE_COMMAND` message, in order, for a command outside the
`roo-cline.newTask` / `vscode.roo-cline.` special path: `executeCommand`
streams one `COMMAND_OUTPUT` from `executeWithArgs`, then on success sends
the `Command ... completed successfully.` `COMMAND_RESULT` (line 220) and
returns the value, whose wrapped form `handleServerMessage`'s `.then` sends
as a second `COMMAND_RESULT` (line 77); on failure `executeCommand`'s `catch`
sends an `Error executing command ...` `COMMAND_RESULT` (line 228) and
rethrows, and `handleServerMessage`'s `.catch` then sends a `COMMAND_ERROR`
(line 80). -/
def hostPlainCommandTrace (command : String) (args : Option JVal) (requestId : String)
    (outcome : ExecOutcome) : List CommunicationMessage :=
  .commandOutput requestId (.str (executingText args)) ::
  match outcome with
  | .success v =>
    [.commandResult requestId
        (formattedResult (.str ("Command " ++ command ++ " completed successfully.")) command),
     .commandResult requestId (formattedResult v command)]
  | .failure e =>
    [.commandResult requestId
        (formattedResult (.str ("Error executing command " ++ command ++ ": " ++ e)) command),
     .commandError requestId ("Error executing command " ++ command ++ ": " ++ e)]

/-- The request id `handleServerMessage` uses (`McpNodeServer.ts` line 72):
`message.requestId || Date.now().toString()` — the message's own id when it
is a truthy string, the host-generated fallback otherwise. -/
def hostChosenRequestId (msg : JVal) (fallback : String) : String :=
  match jsProp msg "requestId" with
  | some (.str r) => if r == "" then fallback else r
  | _ => fallback

/-- Model of `restartServer` (`McpNodeServer.ts` lines 514-517):
`await this.stopServer()` then `await this.startServer()`, with JavaScript
`await` semantics over the two awaited outcomes — a rejection of the first
propagates and the second call is never made.  Returns the restart outcome
and whether `startServer` was attempted. -/
def restartServer (stopOutcome startOutcome : Except String Unit) :
    Except String Unit × Bool :=
  match stopOutcome with
  | .error e => (.error e, false)
  | .ok _ => (startOutcome, true)

end McpNodeServer

/-- Whether a message ends a request's lifecycle (`COMMAND_RESULT` or
`COMMAND_ERROR`). -/
def isTerminalMessage : CommunicationMessage → Bool
  | .commandResult _ _ => true
  | .commandError _ _ => true
  | _ => false

namespace VscodeBridge

/-- The message `executeCommandViaProcess` (`vscode-bridge.ts` lines 117-125)
sends over the channel: `stringifyMessage({type: EXECUTE_COMMAND, command,
args})` — the object literal has no `requestId` property. -/
def clientExecuteMessage (command : String) (args : Option JVal) : CommunicationMessage :=
  .executeCommand command args none

/-- The correlation test of the client's one-shot `messageHandler`
(`vscode-bridge.ts` lines 84-92) on a parsed message: a `COMMAND_RESULT` or
`COMMAND_ERROR` whose `requestId` property equals the generated id. -/
def clientMessageMatches (rid : String) (msg : JVal) : Bool :=
  (propIsStr msg "type" MessageType.COMMAND_RESULT && jsHasProp msg "requestId"
    && propIsStr msg "requestId" rid)
  || (propIsStr msg "type" MessageType.COMMAND_ERROR && jsHasProp msg "requestId"
    && propIsStr msg "requestId" rid)

/-- The observable state of one `executeCommandViaProcess` call: the promise
(settled at most once, with `message.result` on resolve — possibly
`undefined` — or an error message on reject), whether
`processMessageListener` is still registered, and whether the timeout is
still armed. -/
structure PendingCall where
  settled : Option (Except String (Option JVal))
  listenerRegistered : Bool
  timerActive : Bool

/-- State right after `executeCommandViaProcess` registered its listener,
armed its timeout and sent the request. -/
def initialPendingCall : PendingCall :=
  { settled := none, listenerRegistered := true, timerActive := true }

/-- JavaScript promise settlement: `resolve`/`reject` on an already-settled
promise has no effect. -/
def settlePromise (p : PendingCall) (o : Except String (Option JVal)) : PendingCall :=
  match p.settled with
  | some _ => p
  | none => { p with settled := some o }

/-- The timeout callback (`vscode-bridge.ts` lines 79-81): it only calls
`reject(new Error("Command execution timed out: " + command))`; it does not
remove the message listener. -/
def onTimeoutFires (command : String) (p : PendingCall) : PendingCall :=
  if p.timerActive then
    settlePromise { p with timerActive := false }
      (.error ("Command execution timed out: " ++ command))
  else p

/-- The `messageHandler` body on a parsed message (`vscode-bridge.ts` lines
84-102): on a matching terminal message, clear the timeout, remove the
listener, and resolve with `message.result` or reject with
`new Error(message.error)`; otherwise do nothing. -/
def clientMessageHandler (rid : String) (msg : JVal) (p : PendingCall) : PendingCall :=
  if clientMessageMatches rid msg then
    let p1 := { p with timerActive := false, listenerRegistered := false }
    if propIsStr msg "type" MessageType.COMMAND_RESULT then
      settlePromise p1 (.ok (jsProp msg "result"))
    else
      settlePromise p1
        (.error (match jsProp msg "error" with | some (.str e) => e | _ => ""))
  else p

/-- The `processMessageListener` (`vscode-bridge.ts` lines 105-112) on a raw
channel message: string messages are parsed with `parseMessage` and handed to
`messageHandler` if non-null; it runs only while registered. -/
def onChannelMessage (rid : String) (raw : String) (p : PendingCall) : PendingCall :=
  if p.listenerRegistered then
    match parseMessage raw with
    | some msg => clientMessageHandler rid msg p
    | none => p
  else p

end VscodeBridge

namespace ServerIndex

/-- The possible ways the `startServer` promise in `server/src/index.ts` can
finish: the server is listening; the function returned after logging a
port-conflict error without listening; or the promise rejected. -/
inductive StartOutcome where
  | listening
  | resolvedWithoutListening (loggedError : String)
  | rejected (error : String)

/-- Result of one `startServer(port)` run: how many times
`killProcessOnPort` was invoked, and how the promise finished. -/
structure StartServerRun where
  killAttempts : Nat
  outcome : StartOutcome

/-- Model of `startServer` (`server/src/index.ts` lines 162-188) over the two
port probes it can make: `isPortInUse(port)` before and after the single
`killProcessOnPort(port)` call.  When the port is free, `app.listen` runs;
when it is occupied, the process on it is killed once and the port re-probed;
if still occupied, the function logs the `Port ... is still in use` error and
returns (the promise resolves) without listening.  `killProcessOnPort`
(`port-utils.ts` lines 33-69) itself always resolves, even when the kill
command fails. -/
def startServer (port : Nat) (inUseFirst inUseAfterKill : Bool) : StartServerRun :=
  if inUseFirst then
    if inUseAfterKill then
      { killAttempts := 1,
        outcome := .resolvedWithoutListening
          ("Port " ++ toString port
            ++ " is still in use after attempting to kill the process. Please close the application using this port.") }
    else { killAttempts := 1, outcome := .listening }
  else { killAttempts := 0, outcome := .listening }

/-- Whether a start outcome is a rejection of the returned promise. -/
def StartOutcome.isRejection : StartOutcome → Bool
  | .rejected _ => true
  | _ => false

/-- Whether a start outcome left the server listening. -/
def StartOutcome.isListening : StartOutcome → Bool
  | .listening => true
  | _ => false

end ServerIndex

/-! ## Claim theorems -/

/-- C1 (code bug): the `ExecuteCommand` message `executeCommandViaProcess`
sends does not carry the freshly generated `requestId`: the object literal it
stringifies has no `requestId` property, so the message the host parses back
has none either; `handleServerMessage` therefore falls back to its own
`Date.now().toString()` id, and the host's terminal messages — tagged with
that fallback id — never satisfy the client's correlation test for its own
generated id. -/
theorem executeCommand_message_lacks_requestId :
    parseMessage (stringifyMessage (VscodeBridge.clientExecuteMessage "echo" (some (.arr []))))
      = some (encodeMsg (VscodeBridge.clientExecuteMessage "echo" (some (.arr []))))
    ∧ jsProp (encodeMsg (VscodeBridge.clientExecuteMessage "echo" (some (.arr []))))
        "requestId" = none
    ∧ McpNodeServer.hostChosenRequestId
        (encodeMsg (VscodeBridge.clientExecuteMessage "echo" (some (.arr []))))
        "1700000000000" = "1700000000000"
    ∧ VscodeBridge.clientMessageMatches "1700000000000123"
        (encodeMsg (.commandResult "1700000000000" (.str "ok"))) = false := by
  refine ⟨?_, rfl, rfl, rfl⟩
  unfold parseMessage jsonParseExc stringifyMessage
  rw [jsonParse_jsonRender]

/-- C2 (code bug): for every `EXECUTE_COMMAND` the host executes outside the
`roo-cline` special path, the message trace contains exactly two terminal
messages, not one: on success two `COMMAND_RESULT`s (the completion notice
sent inside `executeCommand` and the wrapped value sent by
`handleServerMessage`'s `.then`), on failure a `COMMAND_RESULT` carrying the
error text followed by a `COMMAND_ERROR`. -/
theorem host_sends_two_terminal_messages (command : String) (args : Option JVal)
    (requestId : String) (outcome : McpNodeServer.ExecOutcome) :
    (McpNodeServer.hostPlainCommandTrace command args requestId outcome).countP
      isTerminalMessage = 2 := by
  cases outcome <;> rfl

/-- The argument-normalization rule exactly as claim C3 states it: an array
is spread positionally, a non-null object is the single parameter, null or
absent means no parameters, and a scalar is the single parameter. -/
def normalizeArgsSpec : Option JVal → List JVal
  | some (.arr xs) => xs
  | some (.obj fs) => [.obj fs]
  | none => []
  | some .null => []
  | some v => [v]

/-- C3: the `executeWithArgs` dispatch of `McpNodeServer.executeCommand` is a
total deterministic function of the args shape and agrees with the claim's
four-case normalization rule on every input. -/
theorem executeWithArgs_matches_spec (args : Option JVal) :
    McpNodeServer.executeWithArgs args = normalizeArgsSpec args := by
  rcases args with _ | v
  · rfl
  · cases v <;> rfl

/-- C4 counterexample: with the target port occupied and still occupied after
the single remediation attempt, `startServer` does not reject with a
`PortConflict` failure — the promise resolves (after logging the conflict)
and the server is simply not started. -/
theorem startServer_conflict_resolves_counterexample :
    (ServerIndex.startServer 5201 true true).outcome.isRejection = false
    ∧ (ServerIndex.startServer 5201 true true).outcome.isListening = false
    ∧ (ServerIndex.startServer 5201 true true).killAttempts = 1 :=
  ⟨rfl, rfl, rfl⟩

/-- C4 (amended): port remediation is attempted exactly once and never
retried; if the port is freed the server proceeds to listen; if the port is
still occupied after the one attempt, `startServer` logs the conflict and
returns successfully without listening (no rejection, no server left
running). -/
theorem startServer_remediation_once (port : Nat) (inUseFirst inUseAfterKill : Bool) :
    (ServerIndex.startServer port inUseFirst inUseAfterKill).killAttempts ≤ 1
    ∧ (inUseFirst = true →
        (ServerIndex.startServer port inUseFirst inUseAfterKill).killAttempts = 1)
    ∧ (inUseFirst = false →
        (ServerIndex.startServer port inUseFirst inUseAfterKill).outcome
          = ServerIndex.StartOutcome.listening)
    ∧ (inUseFirst = true → inUseAfterKill = false →
        (ServerIndex.startServer port inUseFirst inUseAfterKill).outcome
          = ServerIndex.StartOutcome.listening)
    ∧ (inUseFirst = true → inUseAfterKill = true →
        (ServerIndex.startServer port inUseFirst inUseAfterKill).outcome.isRejection = false
        ∧ (ServerIndex.startServer port inUseFirst
            inUseAfterKill).outcome.isListening = false) := by
  cases inUseFirst <;> cases inUseAfterKill <;>
    exact ⟨by simp [ServerIndex.startServer],
      fun h => by simp [ServerIndex.startServer] at h ⊢,
      fun h => by simp [ServerIndex.startServer] at h ⊢,
      fun h1 h2 => by simp [ServerIndex.startServer] at h1 h2 ⊢,
      fun h1 h2 => by
        simp [ServerIndex.startServer, ServerIndex.StartOutcome.isRejection,
          ServerIndex.StartOutcome.isListening] at h1 h2 ⊢⟩

/-- Witness for C4's amended theorem at a concrete conflict that remediation
clears: one kill attempt, then listening. -/
theorem startServer_remediation_once_witness :
    (ServerIndex.startServer 5201 true false).killAttempts = 1
    ∧ (ServerIndex.startServer 5201 true false).outcome
        = ServerIndex.StartOutcome.listening :=
  ⟨(startServer_remediation_once 5201 true false).2.1 rfl,
   (startServer_remediation_once 5201 true false).2.2.2.1 rfl rfl⟩

/-- C5 counterexample: when the timeout fires first, the registered message
listener is not removed — `executeCommandViaProcess`'s timeout callback only
rejects the promise, so `listenerRegistered` stays `true`, contradicting the
claim that the `PendingRequest` (the registered listener) is removed. -/
theorem timeout_leaves_listener_registered :
    ¬ (VscodeBridge.onTimeoutFires "echo"
        VscodeBridge.initialPendingCall).listenerRegistered = false := by
  intro h
  exact absurd h (by decide)

/-- C5 (amended): when the timeout fires before a terminal message, the call
rejects with the `Command execution timed out` error but the message listener
stays registered; any channel message arriving afterwards — matching terminal
or otherwise — leaves the already-rejected promise unchanged (settling a
settled promise is a no-op) and throws nothing. -/
theorem timeout_then_late_terminal (command rid : String) :
    (VscodeBridge.onTimeoutFires command VscodeBridge.initialPendingCall).settled
      = some (.error ("Command execution timed out: " ++ command))
    ∧ (VscodeBridge.onTimeoutFires command
        VscodeBridge.initialPendingCall).listenerRegistered = true
    ∧ ∀ raw : String,
        (VscodeBridge.onChannelMessage rid raw
          (VscodeBridge.onTimeoutFires command VscodeBridge.initialPendingCall)).settled
        = (VscodeBridge.onTimeoutFires command VscodeBridge.initialPendingCall).settled := by
  have hp1 : VscodeBridge.onTimeoutFires command VscodeBridge.initialPendingCall
      = { settled := some (.error ("Command execution timed out: " ++ command)),
          listenerRegistered := true, timerActive := false } := rfl
  rw [hp1]
  refine ⟨rfl, rfl, ?_⟩
  intro raw
  unfold VscodeBridge.onChannelMessage
  simp only [if_true]
  cases parseMessage raw with
  | none => rfl
  | some msg =>
    simp only []
    unfold VscodeBridge.clientMessageHandler
    by_cases hm : VscodeBridge.clientMessageMatches rid msg = true
    · rw [if_pos hm]
      by_cases ht : propIsStr msg "type" MessageType.COMMAND_RESULT = true
      · rw [if_pos ht]; rfl
      · rw [if_neg ht]; rfl
    · rw [if_neg hm]

/-- C6: `restartServer` is `stopServer` then `startServer` under `await`
semantics — its outcome is the monadic sequence of the two outcomes — and
whenever `stopServer`'s promise rejects, `restartServer` rejects with the
same error without attempting `startServer`. -/
theorem restartServer_is_stop_then_start (stopOutcome startOutcome : Except String Unit) :
    (McpNodeServer.restartServer stopOutcome startOutcome).1
      = stopOutcome.bind (fun _ => startOutcome)
    ∧ ∀ e, stopOutcome = .error e →
        McpNodeServer.restartServer stopOutcome startOutcome = (.error e, false) := by
  constructor
  · cases stopOutcome <;> rfl
  · intro e he
    subst he
    rfl

/-- Witness for C6 at a concrete failing stop: restart fails with the stop
error and start is not attempted. -/
theorem restartServer_is_stop_then_start_witness :
    McpNodeServer.restartServer (.error "stop failed") (.ok ())
      = (.error "stop failed", false) :=
  (restartServer_is_stop_then_start (.error "stop failed") (.ok ())).2 "stop failed" rfl

/-- C7: `parseMessage` is total and never throws: for every input string it
returns either a parsed message or `null`, and whenever the underlying
`JSON.parse` throws, the exception is caught and `null` returned (the
malformed input is discarded, not propagated). -/
theorem parseMessage_total_never_throws (s : String) :
    (∀ e, jsonParseExc s = .error e → parseMessage s = none)
    ∧ (parseMessage s = none ∨ ∃ v, parseMessage s = some v) := by
  constructor
  · intro e he
    unfold parseMessage
    rw [he]
  · unfold parseMessage
    cases h : jsonParseExc s with
    | ok v => exact Or.inr ⟨v, rfl⟩
    | error e => exact Or.inl rfl

/-- Witness for C7 at a concrete malformed input (an unterminated object):
the parse error is absorbed into `null`. -/
theorem parseMessage_total_never_throws_witness :
    jsonParseExc "\x7b" = .error "SyntaxError: Unexpected token in JSON"
    ∧ parseMessage "\x7b" = none :=
  ⟨rfl, (parseMessage_total_never_throws "\x7b").1 _ rfl⟩

/-- C8: serialization is total on message values and round-trips:
`parseMessage (stringifyMessage m)` decodes every constructible
`CommunicationMessage` back to exactly the JSON object `stringifyMessage`
serialized (structural equality, field order preserved). -/
theorem parseMessage_stringifyMessage (m : CommunicationMessage) :
    parseMessage (stringifyMessage m) = some (encodeMsg m) := by
  unfold parseMessage jsonParseExc stringifyMessage
  rw [jsonParse_jsonRender]

/-- The result-wrapping rule exactly as claim C9 states it: an object that
already has a `result` key passes unchanged; everything else is wrapped as
`(result, status: "success", command)`. -/
def formattedResultSpec (result : JVal) (command : String) : JVal :=
  match result with
  | .obj fs =>
    if fs.any (fun kv => kv.1 == "result") then .obj fs
    else .obj [("result", .obj fs), ("status", .str "success"), ("command", .str command)]
  | v => .obj [("result", v), ("status", .str "success"), ("command", .str command)]

/-- C9: `sendCommandResult`'s formatting agrees with the claim's rule on
every result value. -/
theorem formattedResult_matches_spec (result : JVal) (command : String) :
    McpNodeServer.formattedResult result command = formattedResultSpec result command := by
  cases result <;> rfl

/-- C10: `parseMessage` performs no schema validation: every value the
underlying `JSON.parse` accepts is returned as a parsed message, including
shapes that are not messages at all — `"42"` and `"{}"` (written here with
escaped braces) parse to values that lack even a `type` property. -/
theorem parseMessage_accepts_any_json :
    (∀ s v, jsonParseExc s = .ok v → parseMessage s = some v)
    ∧ parseMessage "42" = some (.num 42)
    ∧ parseMessage "\x7b\x7d" = some (.obj [])
    ∧ jsHasProp (.num 42) "type" = false
    ∧ jsHasProp (.obj []) "type" = false := by
  refine ⟨?_, rfl, rfl, rfl, rfl⟩
  intro s v h
  unfold parseMessage
  rw [h]

/-- Witness for C10: applying the no-validation direction at a concrete
schema-invalid input. -/
theorem parseMessage_accepts_any_json_witness :
    parseMessage "true" = some (.bool true) :=
  parseMessage_accepts_any_json.1 "true" (.bool true) rfl
